import Mathlib

/-!
Shallow embedding of the bitbang timing and capability-adapter layer of
`xsvftool-ft232r2.c` (LibXSVF-FT23xx).  Pure functions model the pin
register, the three-phase pulse protocol, the capability adapter callbacks
(`h_setup`, `h_pulse_tck`, `h_udelay`, `h_report_device`) and the capture
rendering loop of `main`.  Hardware inputs (read-back bytes, wall-clock
timestamps) are passed as explicit parameters; process state (the session
counters, the capture array and the `bb_reg` byte) is passed as an explicit
state record.
-/

namespace XsvfBang

/-! ### Pin masks (lines 65-72 of the source)

`bb_reg` is an `unsigned char`, so a C bit complement `~MASK` applied to it
acts within one byte; we model it as `255 ^^^ MASK` on register values
kept below 256. -/

def MASK_TMS : Nat := 1 <<< 7
def MASK_TDI : Nat := 1 <<< 3
def MASK_TDO : Nat := 1 <<< 6
def MASK_TCK : Nat := 1 <<< 5

def MASK_IO : Nat := MASK_TMS ||| MASK_TDI ||| MASK_TCK

/-! ### Pin register model (`bb_tms`, `bb_tdi`, lines 165-177)

The C setters take an `int val`; any nonzero value sets the bit. -/

def bb_tms (val : Int) (bb_reg : Nat) : Nat :=
  if val ≠ 0 then bb_reg ||| MASK_TMS else bb_reg &&& (255 ^^^ MASK_TMS)

def bb_tdi (val : Int) (bb_reg : Nat) : Nat :=
  if val ≠ 0 then bb_reg ||| MASK_TDI else bb_reg &&& (255 ^^^ MASK_TDI)

/-! ### The three-phase pulse (`bb_pulse_tck`, lines 179-229)

`bb_pulse_out` is the `buf_out` array built at lines 196-198
(`buf_out[0] = bb_reg & ~MASK_TCK; buf_out[1] = bb_reg | MASK_TCK;
buf_out[2] = buf_out[0]`).  `bb_pulse_tdo` is the returned value at
line 228, computed from the third read-back byte `buf_in[2]`; the three
read-back bytes are a hardware input and appear as the `buf_in`
parameter. -/

def bb_pulse_out (bb_reg : Nat) : List Nat :=
  let b0 := bb_reg &&& (255 ^^^ MASK_TCK)
  let b1 := bb_reg ||| MASK_TCK
  [b0, b1, b0]

def bb_pulse_tdo (buf_in : List Nat) : Nat :=
  if buf_in.getD 2 0 &&& MASK_TDO ≠ 0 then 1 else 0

/-! ### Reachable pin-register values

The register starts at 0 (`bb_reg = 0`, lines 83 and 150) and is only ever
mutated by `bb_tms` and `bb_tdi`; `regAfter ops` is its value after an
arbitrary interleaving of those two setters. -/

inductive RegOp where
  | tms (val : Int)
  | tdi (val : Int)

def applyRegOp (r : Nat) (op : RegOp) : Nat :=
  match op with
  | .tms v => bb_tms v r
  | .tdi v => bb_tdi v r

def regAfter (ops : List RegOp) : Nat :=
  ops.foldl applyRegOp 0

/-! ### Device setup (`bb_setup` lines 87-151, `h_setup` lines 243-252)

On the Linux path, when `ftdi_usb_open` fails the code prints
a cannot-open diagnostic and returns early, skipping the baud rate, latency,
bit-mode and register-reset steps; `h_setup` then still returns 0.
The presence of a matching device is the environment parameter. -/

inductive Diag where
  | cantOpenDevice
  deriving DecidableEq, Repr

structure SetupResult where
  msgs : List Diag
  opened : Bool
  baudSet : Bool
  latencySet : Bool
  bitmodeSet : Bool
  regReset : Bool
  deriving DecidableEq, Repr

def bb_setup (devicePresent : Bool) : SetupResult :=
  if devicePresent then
    { msgs := [], opened := true, baudSet := true, latencySet := true,
      bitmodeSet := true, regReset := true }
  else
    { msgs := [Diag.cantOpenDevice], opened := false, baudSet := false,
      latencySet := false, bitmodeSet := false, regReset := false }

def h_setup (devicePresent : Bool) : SetupResult × Int :=
  (bb_setup devicePresent, 0)

/-! ### Session state (`struct udata_s`, lines 233-241)

`retval` is the capture array together with its fill index `retval_i`;
we model the filled prefix as a list (captured bits are the 0/1 values
returned by `bb_pulse_tck`). -/

structure UData where
  clockcount : Nat
  bitcount_tdi : Nat
  bitcount_tdo : Nat
  retval : List Nat
  deriving DecidableEq, Repr

structure HState where
  u : UData
  reg : Nat
  deriving DecidableEq, Repr

/-! ### Capture update (lines 321-322)

`if (rmask == 1 && u->retval_i < 256) u->retval[u->retval_i++] = line_tdo;` -/

def captureUpdate (rmask : Int) (line_tdo : Nat) (retval : List Nat) : List Nat :=
  if rmask = 1 ∧ retval.length < 256 then retval ++ [line_tdo] else retval

/-- Iterated capture with the flag set on every request, from an empty
buffer: the capture sequence produced by a run of capture requests. -/
def captureRun (bits : List Nat) : List Nat :=
  bits.foldl (fun r b => captureUpdate 1 b r) []

/-! ### Clocked-bit exchange (`h_pulse_tck`, lines 304-336)

The third read-back byte of the underlying pulse is the `buf_in`
parameter.  Returns the new state together with `rc`. -/

def h_pulse_tck (tms tdi tdo rmask : Int) (buf_in : List Nat) (s : HState) :
    HState × Int :=
  let reg0 := bb_tms tms s.reg
  let u1 := if tdi ≥ 0 then
      { s.u with bitcount_tdi := s.u.bitcount_tdi + 1 } else s.u
  let reg1 := if tdi ≥ 0 then bb_tdi tdi reg0 else reg0
  let line_tdo : Int := (bb_pulse_tdo buf_in : Nat)
  let rc0 : Int := if line_tdo ≥ 0 then line_tdo else 0
  let u2 := { u1 with retval := captureUpdate rmask line_tdo.toNat u1.retval }
  let u3 := if tdo ≥ 0 ∧ line_tdo ≥ 0 then
      { u2 with bitcount_tdo := u2.bitcount_tdo + 1 } else u2
  let rc1 : Int := if (tdo ≥ 0 ∧ line_tdo ≥ 0) ∧ tdo ≠ line_tdo then -1 else rc0
  let u4 := { u3 with clockcount := u3.clockcount + 1 }
  (⟨u4, reg1⟩, rc1)

/-! ### Delay compensation (`h_udelay`, lines 265-296)

`gettimeofday` results are environment parameters `tv1` (taken before the
pulse loop) and `tv2` (after it).  The result is the new state, the number
of `bb_pulse_tck` calls issued, and the number of microseconds passed to
`usleep` (0 when `usleep` is not called). -/

structure Timeval where
  sec : Int
  usec : Int
  deriving DecidableEq, Repr

def timevalValid (tv : Timeval) : Prop :=
  0 ≤ tv.usec ∧ tv.usec < 1000000

instance (tv : Timeval) : Decidable (timevalValid tv) := by
  unfold timevalValid; infer_instance

/-- Wall-clock microseconds from `tv1` to `tv2`. -/
def elapsed_usecs (tv1 tv2 : Timeval) : Int :=
  (tv2.sec - tv1.sec) * 1000000 + (tv2.usec - tv1.usec)

/-- The value of `usecs` after the two compensation updates at lines
283-287: when the pulse loop crossed a one-second boundary the code first
subtracts `(1000000 - tv1.tv_usec) + (tv2.tv_sec - tv1.tv_sec - 1) * 1000000`
and zeroes `tv1.tv_usec`, then in both cases subtracts
`tv2.tv_usec - tv1.tv_usec`. -/
def udelay_residual (usecs : Int) (tv1 tv2 : Timeval) : Int :=
  if tv2.sec > tv1.sec then
    usecs - ((1000000 - tv1.usec) + (tv2.sec - tv1.sec - 1) * 1000000)
      - (tv2.usec - 0)
  else
    usecs - (tv2.usec - tv1.usec)

def h_udelay (usecs : Int) (tms : Int) (num_tck : Int) (tv1 tv2 : Timeval)
    (s : HState) : HState × Int × Int :=
  if num_tck > 0 then
    ({ s with reg := bb_tms tms s.reg }, num_tck,
      if udelay_residual usecs tv1 tv2 > 0 then udelay_residual usecs tv1 tv2 else 0)
  else
    (s, 0, if usecs > 0 then usecs else 0)

/-! ### Device-ID decoding (`h_report_device`, lines 377-382) -/

def reportRevision (idcode : Nat) : Nat := (idcode >>> 28) &&& 0xf

def reportPart (idcode : Nat) : Nat := (idcode >>> 12) &&& 0xffff

def reportManufacturer (idcode : Nat) : Nat := (idcode >>> 1) &&& 0x7ff

/-! ### Hex rendering of the capture buffer (`main`, lines 544-559)

The outer loop is `for (i=0; i < u.retval_i; i+=4)`, so it runs for
`i = 4*k`, `k < (retval_i+3)/4`; the inner loop is fixed at four
iterations `j = i ... i+3` and is unrolled here.  The element read at
position `j` is `u.retval[j]` in `-B` mode (`hex_mode = 2`) and
`u.retval[u.retval_i - j - 1]` in `-L` mode (`hex_mode = 1`).

`hexIndex`/`hexIndices` compute the array indices the loop reads, in ℤ so
that the negative indices reached by the `-L` mode on a trailing partial
group are visible.  `hexNibbleVal` computes the nibble values; its `-L`
index uses truncated ℕ subtraction and is therefore only faithful to the C
code on indices that stay in range, i.e. when `4 ∣ retval.length`. -/

def hexIndex (n : Nat) (bigEndian : Bool) (j : Nat) : Int :=
  if bigEndian then (j : Int) else (n : Int) - j - 1

def hexIndices (n : Nat) (bigEndian : Bool) : List Int :=
  (List.range ((n + 3) / 4)).flatMap fun k =>
    [hexIndex n bigEndian (4 * k), hexIndex n bigEndian (4 * k + 1),
     hexIndex n bigEndian (4 * k + 2), hexIndex n bigEndian (4 * k + 3)]

def bitAt (retval : List Nat) (bigEndian : Bool) (j : Nat) : Nat :=
  retval.getD (if bigEndian then j else retval.length - j - 1) 0

def hexNibbleVal (retval : List Nat) (bigEndian : Bool) (i : Nat) : Nat :=
  let val1 := 0 <<< 1 ||| bitAt retval bigEndian i
  let val2 := val1 <<< 1 ||| bitAt retval bigEndian (i + 1)
  let val3 := val2 <<< 1 ||| bitAt retval bigEndian (i + 2)
  val3 <<< 1 ||| bitAt retval bigEndian (i + 3)

def renderHex (retval : List Nat) (bigEndian : Bool) : List Nat :=
  (List.range ((retval.length + 3) / 4)).map fun k =>
    hexNibbleVal retval bigEndian (4 * k)

/-! ## Helper lemmas -/

lemma regOp_preserves (op : RegOp) (r : Nat)
    (hr : r ∈ ([0, 8, 128, 136] : List Nat)) :
    applyRegOp r op ∈ ([0, 8, 128, 136] : List Nat) := by
  simp only [List.mem_cons, List.not_mem_nil, or_false] at hr
  rcases op with v | v <;>
    simp only [applyRegOp, bb_tms, bb_tdi] <;>
    split <;>
    rcases hr with rfl | rfl | rfl | rfl <;> decide

lemma foldl_regOp_mem (ops : List RegOp) :
    ∀ r ∈ ([0, 8, 128, 136] : List Nat),
      ops.foldl applyRegOp r ∈ ([0, 8, 128, 136] : List Nat) := by
  induction ops with
  | nil => intro r hr; simpa using hr
  | cons op ops ih =>
    intro r hr
    rw [List.foldl_cons]
    exact ih _ (regOp_preserves op r hr)

/-- The pin register only ever holds combinations of the TMS and TDI bits. -/
lemma regAfter_mem (ops : List RegOp) :
    regAfter ops ∈ ([0, 8, 128, 136] : List Nat) :=
  foldl_regOp_mem ops 0 (by decide)

lemma and_two_pow_ne_zero (x i : Nat) : x &&& 2 ^ i ≠ 0 ↔ x.testBit i = true := by
  rw [Nat.and_two_pow]
  cases h : x.testBit i <;> simp

/-- The value returned by `bb_pulse_tck` is the TDO bit of the third
read-back byte. -/
lemma bb_pulse_tdo_testBit (buf_in : List Nat) :
    bb_pulse_tdo buf_in = if (buf_in.getD 2 0).testBit 6 = true then 1 else 0 := by
  unfold bb_pulse_tdo
  rw [show MASK_TDO = 2 ^ 6 from by decide]
  by_cases h : (buf_in.getD 2 0).testBit 6 = true
  · rw [if_pos ((and_two_pow_ne_zero _ 6).mpr h), if_pos h]
  · rw [if_neg fun hc => h ((and_two_pow_ne_zero _ 6).mp hc), if_neg h]

/-- The setter `bb_tms` touches no bit of the register other than bit 7. -/
lemma bb_tms_testBit (v : Int) (r : Nat) (hr : r < 256) (i : Nat) (hi : i ≠ 7) :
    (bb_tms v r).testBit i = r.testBit i := by
  unfold bb_tms
  split
  · rw [Nat.testBit_or, show MASK_TMS = 2 ^ 7 from by decide,
      Nat.testBit_two_pow_of_ne (by omega), Bool.or_false]
  · rw [Nat.testBit_and, show (255 ^^^ MASK_TMS) = 2 ^ 7 - 1 from by decide,
      Nat.testBit_two_pow_sub_one]
    by_cases h7 : i < 7
    · simp [h7]
    · have h8 : (256 : Nat) ≤ 2 ^ i := by
        calc (256 : Nat) = 2 ^ 8 := by norm_num
        _ ≤ 2 ^ i := Nat.pow_le_pow_right (by norm_num) (by omega)
      have hbit : r.testBit i = false :=
        Nat.testBit_eq_false_of_lt (lt_of_lt_of_le hr h8)
      simp [hbit, h7]

/-! ## Claim theorems -/

/-- C1: for every pin-register value reachable by `setTMS`/`setTDI` calls,
one pulse writes exactly three bytes: byte 1 is the register with TCK
forced low, byte 2 equals byte 1 with exactly the TCK bit set (no other
bit differs), byte 3 equals byte 1, and the returned TDO bit is 1 exactly
when the TDO input bit of the third read-back byte is set. -/
theorem pulse_three_phase (ops : List RegOp) (buf_in : List Nat) :
    (bb_pulse_out (regAfter ops)).length = 3 ∧
    (bb_pulse_out (regAfter ops)).getD 0 0 &&& MASK_TCK = 0 ∧
    (bb_pulse_out (regAfter ops)).getD 1 0
      = (bb_pulse_out (regAfter ops)).getD 0 0 ||| MASK_TCK ∧
    (bb_pulse_out (regAfter ops)).getD 1 0 ^^^ (bb_pulse_out (regAfter ops)).getD 0 0
      = MASK_TCK ∧
    (bb_pulse_out (regAfter ops)).getD 2 0 = (bb_pulse_out (regAfter ops)).getD 0 0 ∧
    bb_pulse_tdo buf_in = (if (buf_in.getD 2 0).testBit 6 = true then 1 else 0) := by
  have key : ∀ r ∈ ([0, 8, 128, 136] : List Nat),
      (bb_pulse_out r).length = 3 ∧
      (bb_pulse_out r).getD 0 0 &&& MASK_TCK = 0 ∧
      (bb_pulse_out r).getD 1 0 = (bb_pulse_out r).getD 0 0 ||| MASK_TCK ∧
      (bb_pulse_out r).getD 1 0 ^^^ (bb_pulse_out r).getD 0 0 = MASK_TCK ∧
      (bb_pulse_out r).getD 2 0 = (bb_pulse_out r).getD 0 0 := by decide
  obtain ⟨h1, h2, h3, h4, h5⟩ := key _ (regAfter_mem ops)
  exact ⟨h1, h2, h3, h4, h5, bb_pulse_tdo_testBit buf_in⟩

/-- C8: every byte the layer writes to the transport has its 1-bits inside
the output direction mask (TMS, TDI, TCK); in particular the TDO bit is
never asserted in a written byte. -/
theorem written_bytes_in_output_mask (ops : List RegOp) (b : Nat)
    (hb : b ∈ bb_pulse_out (regAfter ops)) :
    b &&& (255 ^^^ MASK_IO) = 0 ∧ b &&& MASK_TDO = 0 := by
  have key : ∀ r ∈ ([0, 8, 128, 136] : List Nat), ∀ c ∈ bb_pulse_out r,
      c &&& (255 ^^^ MASK_IO) = 0 ∧ c &&& MASK_TDO = 0 := by decide
  exact key _ (regAfter_mem ops) b hb

theorem written_bytes_in_output_mask_witness :
    (128 ∈ bb_pulse_out (regAfter [RegOp.tms 1])) ∧
      (128 &&& (255 ^^^ MASK_IO) = 0 ∧ 128 &&& MASK_TDO = 0) :=
  ⟨by decide, written_bytes_in_output_mask [RegOp.tms 1] 128 (by decide)⟩

/-- C9: device-ID reporting decodes revision as bits 31-28, part as bits
27-12 and manufacturer as bits 11-1 of the identifier; `0x12345678`
decodes to revision `0x1`, part `0x2345`, manufacturer `0x33C`. -/
theorem report_device_fields (idcode : Nat) :
    reportRevision idcode = idcode / 2 ^ 28 % 2 ^ 4 ∧
    reportPart idcode = idcode / 2 ^ 12 % 2 ^ 16 ∧
    reportManufacturer idcode = idcode / 2 ^ 1 % 2 ^ 11 ∧
    reportRevision 0x12345678 = 0x1 ∧
    reportPart 0x12345678 = 0x2345 ∧
    reportManufacturer 0x12345678 = 0x33C := by
  refine ⟨?_, ?_, ?_, by decide, by decide, by decide⟩
  · rw [reportRevision, Nat.shiftRight_eq_div_pow,
      show (0xf : Nat) = 2 ^ 4 - 1 from by norm_num, Nat.and_pow_two_sub_one_eq_mod]
  · rw [reportPart, Nat.shiftRight_eq_div_pow,
      show (0xffff : Nat) = 2 ^ 16 - 1 from by norm_num, Nat.and_pow_two_sub_one_eq_mod]
  · rw [reportManufacturer, Nat.shiftRight_eq_div_pow,
      show (0x7ff : Nat) = 2 ^ 11 - 1 from by norm_num, Nat.and_pow_two_sub_one_eq_mod]

lemma bitAt_true (l : List Nat) (j : Nat) : bitAt l true j = l.getD j 0 := rfl

lemma bitAt_false (l : List Nat) (j : Nat) :
    bitAt l false j = l.getD (l.length - j - 1) 0 := rfl

lemma getD_reverse (l : List Nat) (j : Nat) (h : j < l.length) :
    l.reverse.getD j 0 = l.getD (l.length - 1 - j) 0 := by
  rw [List.getD_eq_getElem?_getD, List.getD_eq_getElem?_getD, List.getElem?_reverse h]

/-- On whole-group lengths, the `-L` rendering is the `-B` rendering of the
reversed capture sequence: the loop scans the whole sequence backwards. -/
lemma renderHex_little_eq_reverse_big (retval : List Nat) (h : 4 ∣ retval.length) :
    renderHex retval false = renderHex retval.reverse true := by
  obtain ⟨m, hm⟩ := h
  simp only [renderHex, hexNibbleVal]
  rw [List.length_reverse]
  apply List.map_congr_left
  intro k hk
  have hk4 : 4 * k + 3 < retval.length := by
    have := List.mem_range.mp hk
    omega
  have e : ∀ j, j < retval.length →
      retval.reverse.getD j 0 = retval.getD (retval.length - j - 1) 0 := by
    intro j hj
    rw [getD_reverse retval j hj]
    congr 1
    omega
  rw [bitAt_true, bitAt_true, bitAt_true, bitAt_true,
    bitAt_false, bitAt_false, bitAt_false, bitAt_false,
    e (4 * k) (by omega), e (4 * k + 1) (by omega), e (4 * k + 2) (by omega),
    e (4 * k + 3) (by omega)]

/-- C2 counterexample: for the single captured group 1,0,0,0 the `-L`
(little-endian) rendering prints nibble 0x1, not 0x8, and the `-B`
(big-endian) rendering prints 0x8, not 0x1 — the claim has the two modes
swapped. -/
theorem hex_single_group_counterexample :
    renderHex [1, 0, 0, 0] false = [1] ∧ renderHex [1, 0, 0, 0] false ≠ [8] ∧
    renderHex [1, 0, 0, 0] true = [8] ∧ renderHex [1, 0, 0, 0] true ≠ [1] := by
  decide

/-- C2 amended: for group 1,0,0,0 the `-L` rendering prints nibble 0x1 and
the `-B` rendering prints 0x8; in general (whole-group lengths) `-L`
renders the reversed capture sequence in forward group order: the last
captured bit becomes the high-order bit of the first printed nibble. -/
theorem hex_little_endian_amended (retval : List Nat) (h : 4 ∣ retval.length) :
    renderHex retval false = renderHex retval.reverse true ∧
    renderHex [1, 0, 0, 0] false = [1] ∧ renderHex [1, 0, 0, 0] true = [8] :=
  ⟨renderHex_little_eq_reverse_big retval h, by decide, by decide⟩

theorem hex_little_endian_amended_witness :
    (4 ∣ ([1, 0, 0, 0] : List Nat).length) ∧
      renderHex [1, 0, 0, 0] false = renderHex ([1, 0, 0, 0] : List Nat).reverse true :=
  ⟨by decide, (hex_little_endian_amended [1, 0, 0, 0] (by decide)).1⟩

/-- C3 counterexample: with no matching device present, `h_setup` prints
the diagnostic but still returns 0 (the success code), refuting that the
setup operation fails and aborts the session. -/
theorem setup_no_device_counterexample :
    (h_setup false).2 = 0 ∧ (h_setup false).1.msgs = [Diag.cantOpenDevice] := by
  decide

/-- C3 amended: when no matching device is present, setup prints a
diagnostic and skips the remaining configuration steps (baud rate, latency
timer, bit mode, register reset), but the setup callback still returns 0
(success), exactly as in the device-present case, so the failure is not
surfaced to the caller. -/
theorem setup_no_device_behavior :
    (h_setup false).2 = 0 ∧
    (h_setup false).1.msgs = [Diag.cantOpenDevice] ∧
    (h_setup false).1.opened = false ∧
    (h_setup false).1.baudSet = false ∧
    (h_setup false).1.latencySet = false ∧
    (h_setup false).1.bitmodeSet = false ∧
    (h_setup false).1.regReset = false ∧
    (h_setup true).2 = 0 := by
  decide

lemma captureFold_eq_take (bits : List Nat) :
    ∀ acc : List Nat, acc.length ≤ 256 →
      bits.foldl (fun r b => captureUpdate 1 b r) acc
        = acc ++ bits.take (256 - acc.length) := by
  induction bits with
  | nil => intro acc h; simp
  | cons b bs ih =>
    intro acc h
    rw [List.foldl_cons]
    by_cases hlen : acc.length < 256
    · have hupd : captureUpdate 1 b acc = acc ++ [b] := by
        unfold captureUpdate
        rw [if_pos ⟨rfl, hlen⟩]
      rw [hupd, ih (acc ++ [b]) (by simp; omega)]
      have hsplit : 256 - acc.length = (256 - (acc ++ [b]).length) + 1 := by
        simp
        omega
      rw [hsplit, List.take_succ_cons, List.append_assoc, List.singleton_append]
    · have hupd : captureUpdate 1 b acc = acc := by
        unfold captureUpdate
        rw [if_neg]
        rintro ⟨-, hc⟩
        omega
      rw [hupd, ih acc h]
      have h256 : acc.length = 256 := by omega
      simp [h256]

lemma captureRun_eq_take (bits : List Nat) : captureRun bits = bits.take 256 := by
  unfold captureRun
  rw [captureFold_eq_take bits [] (by simp)]
  simp

/-- C6: the capture sequence never exceeds 256 bits; a run of capture
requests retains exactly the first 256 captured bits in capture order and
silently drops the rest. -/
theorem capture_bounded (bits : List Nat) :
    captureRun bits = bits.take 256 ∧
    (captureRun bits).length = min bits.length 256 ∧
    (captureRun bits).length ≤ 256 := by
  refine ⟨captureRun_eq_take bits, ?_, ?_⟩ <;>
    rw [captureRun_eq_take bits, List.length_take] <;> omega

/-- C7 (code bug): at capture length 5 the rendering loop enters a fifth,
partial group; in `-L` mode it reads array indices -1, -2, -3 and in `-B`
mode indices 5, 6, 7, all outside the captured range 0..4, while
whole-group lengths stay in range. -/
theorem hex_partial_group_reads_out_of_range :
    hexIndices 5 false = [4, 3, 2, 1, 0, -1, -2, -3] ∧
    hexIndices 5 true = [0, 1, 2, 3, 4, 5, 6, 7] ∧
    ¬ (∀ idx ∈ hexIndices 5 false, 0 ≤ idx ∧ idx < 5) ∧
    ¬ (∀ idx ∈ hexIndices 5 true, 0 ≤ idx ∧ idx < 5) ∧
    (∀ idx ∈ hexIndices 8 false, 0 ≤ idx ∧ idx < 8) ∧
    (∀ idx ∈ hexIndices 8 true, 0 ≤ idx ∧ idx < 8) := by
  decide

lemma ite_pos_eq_max (x : Int) : (if x > 0 then x else 0) = max 0 x := by
  split <;> omega

/-- C4: with `n = 0` the delay routine issues no pulses and sleeps
`max 0 d`; with `n > 0` it sets TMS, issues exactly `n` pulses, and sleeps
the requested delay minus the wall-clock time the pulse loop consumed
(correct across one-second boundaries), clamped at zero; the sleep is
never negative. -/
theorem udelay_compensation (usecs tms num_tck : Int) (tv1 tv2 : Timeval)
    (s : HState)
    (hmono : tv1.sec < tv2.sec ∨ (tv1.sec = tv2.sec ∧ tv1.usec ≤ tv2.usec)) :
    (num_tck = 0 →
      (h_udelay usecs tms num_tck tv1 tv2 s).2.1 = 0 ∧
      (h_udelay usecs tms num_tck tv1 tv2 s).2.2 = max 0 usecs) ∧
    (num_tck > 0 →
      (h_udelay usecs tms num_tck tv1 tv2 s).2.1 = num_tck ∧
      (h_udelay usecs tms num_tck tv1 tv2 s).2.2
        = max 0 (usecs - elapsed_usecs tv1 tv2) ∧
      (h_udelay usecs tms num_tck tv1 tv2 s).1.reg = bb_tms tms s.reg) ∧
    0 ≤ (h_udelay usecs tms num_tck tv1 tv2 s).2.2 := by
  have hle : num_tck ≤ 0 →
      (h_udelay usecs tms num_tck tv1 tv2 s).2.1 = 0 ∧
      (h_udelay usecs tms num_tck tv1 tv2 s).2.2 = max 0 usecs := by
    intro h
    unfold h_udelay
    rw [if_neg (by omega)]
    exact ⟨rfl, ite_pos_eq_max usecs⟩
  have hgt : num_tck > 0 →
      (h_udelay usecs tms num_tck tv1 tv2 s).2.1 = num_tck ∧
      (h_udelay usecs tms num_tck tv1 tv2 s).2.2
        = max 0 (usecs - elapsed_usecs tv1 tv2) ∧
      (h_udelay usecs tms num_tck tv1 tv2 s).1.reg = bb_tms tms s.reg := by
    intro h
    unfold h_udelay
    rw [if_pos h]
    refine ⟨rfl, ?_, rfl⟩
    show (if udelay_residual usecs tv1 tv2 > 0 then udelay_residual usecs tv1 tv2 else 0)
        = max 0 (usecs - elapsed_usecs tv1 tv2)
    rw [ite_pos_eq_max]
    congr 1
    unfold udelay_residual elapsed_usecs
    by_cases hs : tv2.sec > tv1.sec
    · rw [if_pos hs]
      ring
    · rw [if_neg hs]
      have hsec : tv2.sec = tv1.sec := by
        rcases hmono with h1 | ⟨h1, -⟩ <;> omega
      rw [hsec]
      ring
  refine ⟨fun h0 => hle (by omega), hgt, ?_⟩
  by_cases hn : num_tck > 0
  · rw [(hgt hn).2.1]
    exact le_max_left 0 _
  · rw [(hle (by omega)).2]
    exact le_max_left 0 _

theorem udelay_compensation_witness :
    (h_udelay 1000 1 2 ⟨5, 999999⟩ ⟨6, 5⟩ ⟨⟨0, 0, 0, []⟩, 0⟩).2.1 = 2 ∧
    (h_udelay 1000 1 2 ⟨5, 999999⟩ ⟨6, 5⟩ ⟨⟨0, 0, 0, []⟩, 0⟩).2.2
      = max 0 (1000 - elapsed_usecs ⟨5, 999999⟩ ⟨6, 5⟩) ∧
    (h_udelay 1000 1 2 ⟨5, 999999⟩ ⟨6, 5⟩ ⟨⟨0, 0, 0, []⟩, 0⟩).2.2 = 994 := by
  have h := udelay_compensation 1000 1 2 ⟨5, 999999⟩ ⟨6, 5⟩ ⟨⟨0, 0, 0, []⟩, 0⟩
    (Or.inl (by norm_num))
  exact ⟨(h.2.1 (by norm_num)).1, (h.2.1 (by norm_num)).2.1, by decide⟩

/-- C10: the delay routine leaves the clock-pulse, driven-bit and
compared-bit counters and the capture sequence unchanged; of the pin
register only the TMS bit may change, and nothing changes at all when the
pulse count is not positive. -/
theorem udelay_frame (usecs tms num_tck : Int) (tv1 tv2 : Timeval) (s : HState)
    (hreg : s.reg < 256) :
    (h_udelay usecs tms num_tck tv1 tv2 s).1.u = s.u ∧
    (num_tck ≤ 0 → (h_udelay usecs tms num_tck tv1 tv2 s).1 = s) ∧
    (∀ i, i ≠ 7 →
      ((h_udelay usecs tms num_tck tv1 tv2 s).1.reg).testBit i
        = s.reg.testBit i) := by
  unfold h_udelay
  by_cases hn : num_tck > 0
  · rw [if_pos hn]
    exact ⟨rfl, fun h => absurd hn (by omega),
      fun i hi => bb_tms_testBit tms s.reg hreg i hi⟩
  · rw [if_neg hn]
    exact ⟨rfl, fun _ => rfl, fun i hi => rfl⟩

theorem udelay_frame_witness :
    (h_udelay 7 1 5 ⟨0, 0⟩ ⟨0, 3⟩ ⟨⟨1, 2, 3, [0]⟩, 0⟩).1.u = UData.mk 1 2 3 [0] ∧
    ((h_udelay 7 1 5 ⟨0, 0⟩ ⟨0, 3⟩ ⟨⟨1, 2, 3, [0]⟩, 0⟩).1.reg).testBit 3
      = (0 : Nat).testBit 3 := by
  have h := udelay_frame 7 1 5 ⟨0, 0⟩ ⟨0, 3⟩ ⟨⟨1, 2, 3, [0]⟩, 0⟩ (by norm_num)
  exact ⟨h.1, h.2.2 3 (by norm_num)⟩

lemma bb_tms_testBit7 (v : Int) (r : Nat) :
    (bb_tms v r).testBit 7 = decide (v ≠ 0) := by
  unfold bb_tms
  by_cases h : v ≠ 0
  · rw [if_pos h, Nat.testBit_or, show MASK_TMS.testBit 7 = true from by decide,
      Bool.or_true]
    exact (decide_eq_true h).symm
  · rw [if_neg h, Nat.testBit_and,
      show (255 ^^^ MASK_TMS).testBit 7 = false from by decide, Bool.and_false]
    exact (decide_eq_false h).symm

lemma bb_tdi_testBit7 (v : Int) (r : Nat) :
    (bb_tdi v r).testBit 7 = r.testBit 7 := by
  unfold bb_tdi
  split
  · rw [Nat.testBit_or, show MASK_TDI.testBit 7 = false from by decide, Bool.or_false]
  · rw [Nat.testBit_and, show (255 ^^^ MASK_TDI).testBit 7 = true from by decide,
      Bool.and_true]

lemma bb_tdi_testBit3 (v : Int) (r : Nat) :
    (bb_tdi v r).testBit 3 = decide (v ≠ 0) := by
  unfold bb_tdi
  by_cases h : v ≠ 0
  · rw [if_pos h, Nat.testBit_or, show MASK_TDI.testBit 3 = true from by decide,
      Bool.or_true]
    exact (decide_eq_true h).symm
  · rw [if_neg h, Nat.testBit_and,
      show (255 ^^^ MASK_TDI).testBit 3 = false from by decide, Bool.and_false]
    exact (decide_eq_false h).symm

/-- C5: the clocked-bit exchange always drives TMS to the requested level;
a present `tdi` increments the driven-bit counter by one and drives TDI,
an absent one leaves the counter alone; a present `tdo` increments the
compared-bit counter by one (the sampled bit is always present here) and
a differing expectation makes the call return -1, distinct from the
sampled 0/1 bit that is returned otherwise. -/
theorem pulse_tck_exchange (tms tdi tdo rmask : Int) (buf_in : List Nat)
    (s : HState) :
    (h_pulse_tck tms tdi tdo rmask buf_in s).1.u.bitcount_tdi
      = s.u.bitcount_tdi + (if tdi ≥ 0 then 1 else 0) ∧
    ((h_pulse_tck tms tdi tdo rmask buf_in s).1.reg).testBit 7
      = decide (tms ≠ 0) ∧
    (tdi ≥ 0 →
      ((h_pulse_tck tms tdi tdo rmask buf_in s).1.reg).testBit 3
        = decide (tdi ≠ 0)) ∧
    (h_pulse_tck tms tdi tdo rmask buf_in s).1.u.bitcount_tdo
      = s.u.bitcount_tdo + (if tdo ≥ 0 then 1 else 0) ∧
    (h_pulse_tck tms tdi tdo rmask buf_in s).2
      = (if tdo ≥ 0 ∧ tdo ≠ ((bb_pulse_tdo buf_in : Nat) : Int) then -1
         else ((bb_pulse_tdo buf_in : Nat) : Int)) ∧
    (bb_pulse_tdo buf_in = 0 ∨ bb_pulse_tdo buf_in = 1) := by
  have hline01 : bb_pulse_tdo buf_in = 0 ∨ bb_pulse_tdo buf_in = 1 := by
    unfold bb_pulse_tdo
    split
    · exact Or.inr rfl
    · exact Or.inl rfl
  have hline : ((bb_pulse_tdo buf_in : Nat) : Int) ≥ 0 := Int.natCast_nonneg _
  by_cases hdi : tdi ≥ 0 <;> by_cases hdo : tdo ≥ 0 <;>
    refine ⟨?_, ?_, ?_, ?_, ?_, hline01⟩ <;>
      simp [h_pulse_tck, hdi, hdo, hline, bb_tms_testBit7, bb_tdi_testBit7,
        bb_tdi_testBit3]

theorem pulse_tck_exchange_witness :
    (((h_pulse_tck 1 1 1 1 [0, 0, 64] ⟨⟨0, 0, 0, []⟩, 0⟩).1.reg).testBit 3
      = decide ((1 : Int) ≠ 0)) ∧
    (h_pulse_tck 1 1 1 1 [0, 0, 64] ⟨⟨0, 0, 0, []⟩, 0⟩).1.u.bitcount_tdi
      = 0 + (if (1 : Int) ≥ 0 then 1 else 0) := by
  have h := pulse_tck_exchange 1 1 1 1 [0, 0, 64] ⟨⟨0, 0, 0, []⟩, 0⟩
  exact ⟨h.2.2.1 (by norm_num), h.1⟩

end XsvfBang
